import Mathlib

/-!
Shallow embedding of the marker-detection core of the `claudewatch` repository
(`util.go` and its companion source file): the line classifier, the marker
scanner with its one-shot suppression directive, the marker remover, and the
ignore-pattern matcher.  Strings are modelled as Lean `String`s; the Go regular
expressions used by the code are literal token searches, embedded here as
explicit substring searches over character lists.
-/

namespace Claudewatch

/-! ### Substring search utilities

`commentStart`, `markerPattern` and `ignoreRegex` in the Go source are
`regexp.MatchString` calls with unanchored patterns built from literal tokens
(the `\s*` prefixes of `commentStart` match the empty string, so each
alternative matches exactly where its literal token occurs).  An unanchored
literal-token match is substring containment, embedded here directly. -/

/-- Does `pat` occur as a contiguous sublist of `s`?  This is the semantics of
an unanchored literal-pattern `regexp.MatchString`. -/
def hasSubList (pat : List Char) : List Char → Bool
  | [] => pat.isEmpty
  | c :: cs => pat.isPrefixOf (c :: cs) || hasSubList pat cs

/-- Containment of a literal token in a string. -/
def strContains (s pat : String) : Bool :=
  hasSubList pat.data s.data

/-- Case-insensitive containment: the Go patterns carry a `(?i)` flag; all
pattern characters are ASCII, for which Go's case folding coincides with
ASCII lowercasing.  `pat` is given pre-lowercased. -/
def strContainsCI (s pat : String) : Bool :=
  hasSubList pat.data (s.data.map Char.toLower)

/-! ### Marker vocabulary and line classifier (from `util.go`) -/

/-- The fixed vocabulary of marker spellings, in the order the remover
iterates over them (`supportedAIMarkers` in the source). -/
def supportedAIMarkers : List String := ["ai!", "!ai", "ai?"]

/-- Embedding of `isComment`: `commentStart.MatchString(line)` with pattern
`(?:\s*\/\/|\s*#|\s*\/\*|\s*\*)`.  The pattern is unanchored and each `\s*`
matches the empty string, so the match succeeds exactly when one of the four
literal tokens occurs anywhere in the line. -/
def isComment (line : String) : Bool :=
  strContains line "//" || strContains line "#" ||
    strContains line "/*" || strContains line "*"

/-- Embedding of `hasAIMarker`: unanchored case-insensitive search for any of
the three marker spellings. -/
def hasAIMarker (line : String) : Bool :=
  strContainsCI line "ai!" || strContainsCI line "!ai" || strContainsCI line "ai?"

/-- Embedding of `hasIgnoreDirective`: unanchored case-insensitive search for
the suppression keyword. -/
def hasIgnoreDirective (line : String) : Bool :=
  strContainsCI line "ai:ignore"

/-- Embedding of `hasBothMarkerAndIgnore`. -/
def hasBothMarkerAndIgnore (line : String) : Bool :=
  isComment line && hasIgnoreDirective line && hasAIMarker line

/-! ### Line splitting and joining

`strings.Split(content, "\n")` and `strings.Join(lines, "\n")`. -/

/-- Character-level splitting on newline; `strings.Split(s, "\n")` semantics
(always at least one piece; a trailing newline yields a final empty piece). -/
def splitLinesAux : List Char → List (List Char)
  | [] => [[]]
  | c :: cs =>
    if c = '\n' then [] :: splitLinesAux cs
    else
      match splitLinesAux cs with
      | [] => [[c]]
      | l :: ls => (c :: l) :: ls

/-- Embedding of `strings.Split(content, "\n")`. -/
def splitLines (s : String) : List String :=
  (splitLinesAux s.data).map String.mk

/-- Character-level interleaving of a newline between pieces. -/
def joinAux : List (List Char) → List Char
  | [] => []
  | [l] => l
  | l :: l' :: ls => l ++ '\n' :: joinAux (l' :: ls)

/-- Embedding of `strings.Join(lines, "\n")`. -/
def joinLines (ls : List String) : String :=
  ⟨joinAux (ls.map String.data)⟩

/-! ### The scanner (`findActiveAIMarkers`) -/

/-- Embedding of the Go struct `AIMarkerLocation` (line numbers are Go `int`s,
1-based). -/
structure AIMarkerLocation where
  lineNumber : Int
  lineText : String
deriving DecidableEq

instance : Inhabited AIMarkerLocation := ⟨⟨0, ""⟩⟩

/-- The line loop of `findActiveAIMarkers`: `ig` is the `ignoreNextAI` state,
`n` the 1-based number of the next line.  Branches mirror the Go `for` body:
both-on-one-line lines are skipped with the state untouched; directive-only
comment lines set the state; marker-bearing comment lines either consume the
state or emit an occurrence; every other line clears the state. -/
def findAux : Bool → Int → List String → List AIMarkerLocation
  | _, _, [] => []
  | ig, n, line :: rest =>
    if hasBothMarkerAndIgnore line then
      findAux ig (n + 1) rest
    else if isComment line && hasIgnoreDirective line && !hasAIMarker line then
      findAux true (n + 1) rest
    else if isComment line && hasAIMarker line then
      if ig then findAux false (n + 1) rest
      else ⟨n, line⟩ :: findAux ig (n + 1) rest
    else
      findAux false (n + 1) rest

/-- Embedding of `findActiveAIMarkers`. -/
def findActiveAIMarkers (content : String) : List AIMarkerLocation :=
  findAux false 1 (splitLines content)

/-- Embedding of `hasActiveAIMarkers`. -/
def hasActiveAIMarkers (content : String) : Bool :=
  !(findActiveAIMarkers content).isEmpty

/-! ### The remover (`removeAIMarkersFromContent`)

`regexp.MustCompile("(?i)" + regexp.QuoteMeta(markerText)).ReplaceAllString(line, "")`
deletes every leftmost non-overlapping case-insensitive occurrence of the
literal token; embedded as a left-to-right scan with a skip counter for the
tail of a matched token. -/

/-- Case-insensitive literal-prefix match: on success returns the rest of the
input after the matched token (`pat` is given pre-lowercased). -/
def matchCI : List Char → List Char → Option (List Char)
  | [], s => some s
  | _ :: _, [] => none
  | p :: ps, c :: cs => if p = c.toLower then matchCI ps cs else none

/-- Delete every leftmost non-overlapping case-insensitive occurrence of `pat`.
`k` counts characters still inside a previously matched token (to be dropped). -/
def stripAllAux (pat : List Char) : List Char → Nat → List Char
  | [], _ => []
  | _ :: cs, k + 1 => stripAllAux pat cs k
  | c :: cs, 0 =>
    match matchCI pat (c :: cs) with
    | some _ => stripAllAux pat cs (pat.length - 1)
    | none => c :: stripAllAux pat cs 0

/-- Embedding of `ReplaceAllString(s, "")` for the case-insensitive literal
pattern `pat`. -/
def stripAllCI (pat : List Char) (s : List Char) : List Char :=
  stripAllAux pat s 0

/-- The per-line loop body of the remover: strip each marker spelling in
vocabulary order. -/
def stripLine (line : List Char) : List Char :=
  supportedAIMarkers.foldl (fun l m => stripAllCI m.data l) line

/-- String-level wrapper for `stripLine`. -/
def stripLineStr (line : String) : String :=
  ⟨stripLine line.data⟩

/-- The marker loop of `removeAIMarkersFromContent`: processes markers in
order, rewriting the referenced line and accumulating updated occurrences;
`none` models the error return for an out-of-range line number. -/
def removeAux : List String → List AIMarkerLocation → List AIMarkerLocation →
    Option (List String × List AIMarkerLocation)
  | lines, upd, [] => some (lines, upd)
  | lines, upd, m :: ms =>
    if m.lineNumber ≤ 0 ∨ m.lineNumber > (lines.length : Int) then none
    else
      let idx := (m.lineNumber - 1).toNat
      let newLine := stripLineStr (lines.getD idx "")
      removeAux (lines.set idx newLine) (upd ++ [⟨m.lineNumber, newLine⟩]) ms

/-- Embedding of `removeAIMarkersFromContent`; `none` models the
`invalid line number` error return (in which case the Go function returns no
content and no markers). -/
def removeAIMarkersFromContent (content : String) (markers : List AIMarkerLocation) :
    Option (String × List AIMarkerLocation) :=
  match removeAux (splitLines content) [] markers with
  | none => none
  | some (lines, upd) => some (joinLines lines, upd)

/-! ### The ignore-pattern subsystem

A compiled path-matching regular expression denotes a predicate on paths; the
pattern strings themselves are opaque here, so a compiled pattern is embedded
as the `String → Bool` function it denotes, and `regexp.Compile` as an
arbitrary fallible compiler `String → Option Pattern`. -/

/-- Denotation of a compiled path-matching pattern. -/
abbrev Pattern : Type := String → Bool

/-- Embedding of the fields of `Config` consulted by
`ShouldIgnorePathWithConfig`: `none` models a nil pointer / nil slice. -/
structure Config where
  IgnorePattern : Option Pattern
  IgnorePatterns : Option (List Pattern)

/-- Embedding of `IgnorePatterns.MatchesAnyPattern` (including the redundant
early return on an empty set). -/
def MatchesAnyPattern (p : List Pattern) (filePath : String) : Bool :=
  if p.length = 0 then false
  else p.any (fun pattern => pattern filePath)

/-- Whitespace characters trimmed by `strings.TrimSpace` (ASCII fragment). -/
def isSpaceChar (c : Char) : Bool :=
  c = ' ' || c = '\t' || c = '\n' || c = '\r' || c = '\x0b' || c = '\x0c'

/-- Embedding of `strings.TrimSpace`. -/
def trimSpace (s : String) : String :=
  ⟨((s.data.dropWhile isSpaceChar).reverse.dropWhile isSpaceChar).reverse⟩

/-- The line loop of `LoadIgnorePatterns`: skip blank lines, `#`-comment
lines, and lines that fail to compile; keep the rest in order. -/
def parseIgnoreLines (compile : String → Option Pattern) : List String → List Pattern
  | [] => []
  | l :: ls =>
    let t := trimSpace l
    if t = "" || List.isPrefixOf "#".data t.data then parseIgnoreLines compile ls
    else
      match compile t with
      | none => parseIgnoreLines compile ls
      | some p => p :: parseIgnoreLines compile ls

/-- Embedding of `LoadIgnorePatterns`: the argument is the content of the
rule file, or `none` when `os.Stat` reports that the file does not exist (the
Go function then returns `nil, nil`, i.e. an empty rule set and no error). -/
def LoadIgnorePatterns (compile : String → Option Pattern) (ruleFile : Option String) :
    Except Unit (List Pattern) :=
  match ruleFile with
  | none => Except.ok []
  | some content => Except.ok (parseIgnoreLines compile (splitLines content))

/-- Embedding of `ShouldIgnorePathWithConfig`: the single ad-hoc rule is
checked first, then the rule-file set, each guarded by a nil check. -/
def ShouldIgnorePathWithConfig (path : String) (config : Config) : Bool × String :=
  if (config.IgnorePattern.map (fun p => p path)).getD false then
    (true, "ignore pattern (--ignore)")
  else if (config.IgnorePatterns.map (fun ps => MatchesAnyPattern ps path)).getD false then
    (true, ".claudewatchignore pattern")
  else
    (false, "")

/-! ### Claim theorems: classifier and scanner -/

/-- C2: evaluation of the code at inputs refuting the specified classifier:
`commentStart` is unanchored (and its `\s*` prefixes match the empty string),
so `isComment` accepts any line containing `//`, `#`, `/*` or `*` anywhere —
including lines whose only comment token appears after non-whitespace code,
which the specification says must not be classified as comments. -/
theorem C2_isComment_eval :
    isComment "x = a * b" = true ∧
    isComment "return 1 // done" = true ∧
    isComment "  // leading comment" = true ∧
    isComment "plain text" = false := by
  refine ⟨by decide, by decide, by decide, by decide⟩

/-- C4: a suppression directive is consumed by exactly one following marker
line: scanning the two-line text yields nothing, and with a third marker line
appended exactly one occurrence remains, at line 3. -/
theorem C4_suppression_consumed_once :
    findActiveAIMarkers "// ai:ignore\n// fix this ai!" = [] ∧
    findActiveAIMarkers "// ai:ignore\n// fix this ai!\n// other ai!" =
      [⟨3, "// other ai!"⟩] := by
  refine ⟨by decide, by decide⟩

/-- C5: a comment line carrying both the directive and a marker emits no
occurrence and leaves the suppression state untouched — the scanner continues
on the remaining lines with the same state; in particular the one-line text
with both on the same line scans to the empty list. -/
theorem C5_both_on_same_line (ig : Bool) (n : Int) (rest : List String) (line : String)
    (h : hasBothMarkerAndIgnore line = true) :
    findAux ig n (line :: rest) = findAux ig (n + 1) rest ∧
    findActiveAIMarkers "// ai:ignore ai!" = [] := by
  refine ⟨by simp [findAux, h], by decide⟩

/-- C5 witness: the suppression-and-marker line is skipped with the state
(`true` here) unchanged, and the concrete one-line scan is empty. -/
theorem C5_witness :
    findAux true 5 ["// ai:ignore ai!", "// x ai!"] = findAux true 6 ["// x ai!"] ∧
    findActiveAIMarkers "// ai:ignore ai!" = [] :=
  C5_both_on_same_line true 5 ["// x ai!"] "// ai:ignore ai!" (by decide)

/-- C6: a line that falls into none of the scanner's cases 1–3 resets the
suppression state to `false`, while a directive-only comment line seen in the
suppressed state leaves the state suppressed (idempotent, not additive); the
two concrete scans show an intervening line cancelling a pending suppression
and two consecutive directive lines suppressing only the one next marker
line. -/
theorem C6_reset_and_idempotent :
    (∀ (ig : Bool) (n : Int) (rest : List String) (line : String),
        hasBothMarkerAndIgnore line = false →
        (isComment line && hasIgnoreDirective line && !hasAIMarker line) = false →
        (isComment line && hasAIMarker line) = false →
        findAux ig n (line :: rest) = findAux false (n + 1) rest) ∧
    (∀ (n : Int) (rest : List String) (line : String),
        (isComment line && hasIgnoreDirective line && !hasAIMarker line) = true →
        findAux true n (line :: rest) = findAux true (n + 1) rest) ∧
    findActiveAIMarkers "// ai:ignore\nplain line\n// now active ai!" =
      [⟨3, "// now active ai!"⟩] ∧
    findActiveAIMarkers "// ai:ignore\n// ai:ignore\n// first ai!\n// second ai!" =
      [⟨4, "// second ai!"⟩] := by
  refine ⟨?_, ?_, by decide, by decide⟩
  · intro ig n rest line h1 h2 h3
    simp [findAux, h1, h2, h3]
  · intro n rest line h2
    have h1 : hasBothMarkerAndIgnore line = false := by
      simp only [Bool.and_eq_true, Bool.not_eq_true'] at h2
      simp [hasBothMarkerAndIgnore, h2.1.1, h2.1.2, h2.2]
    simp [findAux, h1, h2]

/-- C6 witness: a non-qualifying line resets a pending suppression, and a
second consecutive directive-only line keeps the state suppressed. -/
theorem C6_witness :
    findAux true 1 ["int x = 1", "// a ai!"] = findAux false 2 ["// a ai!"] ∧
    findAux true 7 ["// ai:ignore", "// b ai!"] = findAux true 8 ["// b ai!"] :=
  ⟨C6_reset_and_idempotent.1 true 1 ["// a ai!"] "int x = 1"
      (by decide) (by decide) (by decide),
    C6_reset_and_idempotent.2.1 7 ["// b ai!"] "// ai:ignore" (by decide)⟩

/-! ### Claim theorems: ignore-pattern matcher -/

/-- C8: when both the single ad-hoc rule and the rule-file set match a path,
`ShouldIgnorePathWithConfig` reports the single-rule reason tag — the single
rule is checked first and the first match wins. -/
theorem C8_single_rule_precedence (path : String) (config : Config)
    (p : Pattern) (ps : List Pattern)
    (h1 : config.IgnorePattern = some p) (h2 : p path = true)
    (h3 : config.IgnorePatterns = some ps) (h4 : MatchesAnyPattern ps path = true) :
    ShouldIgnorePathWithConfig path config = (true, "ignore pattern (--ignore)") := by
  simp [ShouldIgnorePathWithConfig, h1, h2]

/-- C8 witness: a configuration whose ad-hoc rule and rule-file set both
match the path reports the ad-hoc reason tag. -/
theorem C8_witness :
    ShouldIgnorePathWithConfig "/a/b/file.js"
      ⟨some (fun _ => true), some [fun _ => true]⟩ = (true, "ignore pattern (--ignore)") :=
  C8_single_rule_precedence "/a/b/file.js" ⟨some (fun _ => true), some [fun _ => true]⟩
    (fun _ => true) [fun _ => true] rfl rfl rfl (by decide)

/-- C9: an empty rule set matches no path, and loading when the rule file is
absent yields an empty rule set rather than an error, so the rule-file set
ignores nothing. -/
theorem C9_empty_rules_match_nothing :
    (∀ filePath : String, MatchesAnyPattern [] filePath = false) ∧
    (∀ compile : String → Option Pattern,
        LoadIgnorePatterns compile none = Except.ok []) :=
  ⟨fun _ => rfl, fun _ => rfl⟩

/-! ### Structural lemmas about the scanner -/

/-- Every occurrence emitted by the scanner loop lies in the line-number
window of the remaining lines, reports the exact text of the line it points
at, and that text is a comment line containing a marker. -/
theorem findAux_mem_spec :
    ∀ (lines : List String) (ig : Bool) (n : Int) (m : AIMarkerLocation),
      m ∈ findAux ig n lines →
      n ≤ m.lineNumber ∧ m.lineNumber < n + lines.length ∧
      m.lineText = lines.getD (m.lineNumber - n).toNat "" ∧
      isComment m.lineText = true ∧ hasAIMarker m.lineText = true := by
  intro lines
  induction lines with
  | nil => intro ig n m hm; simp [findAux] at hm
  | cons line rest ih =>
    intro ig n m hm
    have tail : ∀ ig' : Bool, m ∈ findAux ig' (n + 1) rest →
        n ≤ m.lineNumber ∧ m.lineNumber < n + (line :: rest).length ∧
        m.lineText = (line :: rest).getD (m.lineNumber - n).toNat "" ∧
        isComment m.lineText = true ∧ hasAIMarker m.lineText = true := by
      intro ig' hm'
      obtain ⟨hle, hlt, htext, hcm, hmk⟩ := ih ig' (n + 1) m hm'
      have hlen : ((line :: rest).length : Int) = (rest.length : Int) + 1 := by
        simp [List.length_cons]
      refine ⟨by omega, by omega, ?_, hcm, hmk⟩
      have hidx : (m.lineNumber - n).toNat = (m.lineNumber - (n + 1)).toNat + 1 := by
        omega
      rw [hidx, List.getD_cons_succ]
      exact htext
    simp only [findAux] at hm
    by_cases h1 : hasBothMarkerAndIgnore line
    · rw [if_pos h1] at hm; exact tail ig hm
    rw [if_neg h1] at hm
    by_cases h2 : (isComment line && hasIgnoreDirective line && !hasAIMarker line) = true
    · rw [if_pos h2] at hm; exact tail true hm
    rw [if_neg h2] at hm
    by_cases h3 : (isComment line && hasAIMarker line) = true
    · rw [if_pos h3] at hm
      by_cases hig : ig
      · rw [if_pos hig] at hm; exact tail false hm
      rw [if_neg hig] at hm
      rcases List.mem_cons.mp hm with rfl | hmem
      · have hand : isComment line = true ∧ hasAIMarker line = true := by
          simpa using h3
        refine ⟨le_refl _, ?_, ?_, hand.1, hand.2⟩
        · show n < n + ((line :: rest).length : Int)
          simp only [List.length_cons]
          omega
        · simp
      · exact tail ig hmem
    · rw [if_neg h3] at hm; exact tail false hm

/-- Occurrences are emitted in strictly increasing line-number order. -/
theorem findAux_pairwise :
    ∀ (lines : List String) (ig : Bool) (n : Int),
      (findAux ig n lines).Pairwise (fun a b => a.lineNumber < b.lineNumber) := by
  intro lines
  induction lines with
  | nil => intro ig n; simp [findAux]
  | cons line rest ih =>
    intro ig n
    simp only [findAux]
    by_cases h1 : hasBothMarkerAndIgnore line
    · rw [if_pos h1]; exact ih ig (n + 1)
    rw [if_neg h1]
    by_cases h2 : (isComment line && hasIgnoreDirective line && !hasAIMarker line) = true
    · rw [if_pos h2]; exact ih true (n + 1)
    rw [if_neg h2]
    by_cases h3 : (isComment line && hasAIMarker line) = true
    · rw [if_pos h3]
      by_cases hig : ig
      · rw [if_pos hig]; exact ih false (n + 1)
      rw [if_neg hig]
      refine List.pairwise_cons.mpr ⟨?_, ih ig (n + 1)⟩
      intro m hm
      have := (findAux_mem_spec rest ig (n + 1) m hm).1
      show n < m.lineNumber
      omega
    · rw [if_neg h3]; exact ih false (n + 1)

/-! ### Structural lemmas about the remover loop -/

/-- Any out-of-range line number in the occurrence list makes the remover
loop fail with `none` (the in-range occurrences before it never leak out). -/
theorem removeAux_none_of_bad :
    ∀ (ms : List AIMarkerLocation) (lines : List String) (upd : List AIMarkerLocation),
      (∃ m ∈ ms, m.lineNumber ≤ 0 ∨ m.lineNumber > (lines.length : Int)) →
      removeAux lines upd ms = none := by
  intro ms
  induction ms with
  | nil => intro lines upd h; simp at h
  | cons m ms ih =>
    intro lines upd h
    by_cases hg : m.lineNumber ≤ 0 ∨ m.lineNumber > (lines.length : Int)
    · simp only [removeAux, if_pos hg]
    · obtain ⟨m₀, hm₀, hbad⟩ := h
      rcases List.mem_cons.mp hm₀ with rfl | hmem
      · exact absurd hbad hg
      · simp only [removeAux, if_neg hg]
        exact ih _ _ ⟨m₀, hmem, by simpa [List.length_set] using hbad⟩

/-- With every occurrence in range, the remover loop succeeds. -/
theorem removeAux_isSome_of_bounds :
    ∀ (ms : List AIMarkerLocation) (lines : List String) (upd : List AIMarkerLocation),
      (∀ m ∈ ms, 1 ≤ m.lineNumber ∧ m.lineNumber ≤ (lines.length : Int)) →
      (removeAux lines upd ms).isSome = true := by
  intro ms
  induction ms with
  | nil => intro lines upd _; simp [removeAux]
  | cons m ms ih =>
    intro lines upd h
    have hm := h m (List.mem_cons_self m ms)
    have hg : ¬(m.lineNumber ≤ 0 ∨ m.lineNumber > (lines.length : Int)) := by omega
    simp only [removeAux, if_neg hg]
    refine ih _ _ (fun m' hm' => ?_)
    have := h m' (List.mem_cons_of_mem m hm')
    simpa [List.length_set] using this

/-! ### Claim theorems: error handling and composition -/

/-- C3: if any occurrence's line number falls outside `[1, lineCount(text)]`,
the remover fails (returns `none`, modelling the `invalid line number` error)
and the caller receives no partially modified text or occurrence list. -/
theorem C3_out_of_range_none (content : String) (markers : List AIMarkerLocation)
    (h : ∃ m ∈ markers,
        m.lineNumber ≤ 0 ∨ m.lineNumber > ((splitLines content).length : Int)) :
    removeAIMarkersFromContent content markers = none := by
  unfold removeAIMarkersFromContent
  rw [removeAux_none_of_bad markers (splitLines content) [] h]

/-- C3 witness: the repository test's failing input — a three-line text with
an occurrence at line 5 — makes the remover fail. -/
theorem C3_witness :
    removeAIMarkersFromContent "line1\nline2\nline3"
      [⟨5, "This is beyond the content bounds"⟩] = none :=
  C3_out_of_range_none _ _ (by decide)

/-- C10: every occurrence produced by the scanner has a line number within
`[1, lineCount]` and carries the exact text of that line, so composing the
remover with the scanner's own output never takes the out-of-range branch. -/
theorem C10_scan_in_bounds (content : String) :
    (∀ m ∈ findActiveAIMarkers content,
        1 ≤ m.lineNumber ∧ m.lineNumber ≤ ((splitLines content).length : Int) ∧
        m.lineText = (splitLines content).getD (m.lineNumber - 1).toNat "") ∧
    (removeAIMarkersFromContent content (findActiveAIMarkers content)).isSome = true := by
  have hb : ∀ m ∈ findActiveAIMarkers content,
      1 ≤ m.lineNumber ∧ m.lineNumber ≤ ((splitLines content).length : Int) := by
    intro m hm
    obtain ⟨h1, h2, -, -, -⟩ := findAux_mem_spec (splitLines content) false 1 m hm
    exact ⟨h1, by omega⟩
  constructor
  · intro m hm
    obtain ⟨h1, h2, h3, -, -⟩ := findAux_mem_spec (splitLines content) false 1 m hm
    exact ⟨h1, by omega, h3⟩
  · have hsome := removeAux_isSome_of_bounds (findActiveAIMarkers content)
      (splitLines content) [] hb
    unfold removeAIMarkersFromContent
    cases hre : removeAux (splitLines content) [] (findActiveAIMarkers content) with
    | none => rw [hre] at hsome; simp at hsome
    | some p => rfl

/-- C10 witness: a one-line marker text scans to an in-bounds occurrence and
the scan-then-remove composition succeeds. -/
theorem C10_witness :
    (removeAIMarkersFromContent "// fix ai!" (findActiveAIMarkers "// fix ai!")).isSome = true ∧
    1 ≤ (AIMarkerLocation.mk 1 "// fix ai!").lineNumber :=
  ⟨(C10_scan_in_bounds "// fix ai!").2,
    ((C10_scan_in_bounds "// fix ai!").1 ⟨1, "// fix ai!"⟩ (by decide)).1⟩

/-! ### List index helpers -/

/-- The 0-based index of the line an occurrence refers to. -/
def lineIdx (m : AIMarkerLocation) : Nat := (m.lineNumber - 1).toNat

theorem getD_set_of_ne {α : Type} (l : List α) (v d : α) :
    ∀ (i j : Nat), i ≠ j → (l.set i v).getD j d = l.getD j d := by
  induction l with
  | nil => intro i j _; rfl
  | cons a l ih =>
    intro i j hij
    cases i with
    | zero =>
      cases j with
      | zero => exact absurd rfl hij
      | succ k => simp [List.set, List.getD_cons_succ]
    | succ i' =>
      cases j with
      | zero => simp [List.set]
      | succ k =>
        simp only [List.set, List.getD_cons_succ]
        exact ih i' k (by omega)

theorem getD_set_self {α : Type} (l : List α) (v d : α) :
    ∀ i : Nat, i < l.length → (l.set i v).getD i d = v := by
  induction l with
  | nil => intro i h; simp at h
  | cons a l ih =>
    intro i h
    cases i with
    | zero => simp [List.set]
    | succ i' =>
      simp only [List.set, List.getD_cons_succ]
      exact ih i' (by simpa using h)

theorem ext_getD {α : Type} (d : α) :
    ∀ (l₁ l₂ : List α), l₁.length = l₂.length →
      (∀ j : Nat, l₁.getD j d = l₂.getD j d) → l₁ = l₂ := by
  intro l₁
  induction l₁ with
  | nil =>
    intro l₂ hlen _
    cases l₂ with
    | nil => rfl
    | cons b l₂ => simp at hlen
  | cons a l₁ ih =>
    intro l₂ hlen h
    cases l₂ with
    | nil => simp at hlen
    | cons b l₂ =>
      have h0 := h 0
      simp only [List.getD_cons_zero] at h0
      subst h0
      have := ih l₂ (by simpa using hlen)
        (fun j => by simpa [List.getD_cons_succ] using h (j + 1))
      rw [this]

theorem map_congr_mem {α β : Type} (l : List α) (f g : α → β)
    (h : ∀ a ∈ l, f a = g a) : l.map f = l.map g := by
  induction l with
  | nil => rfl
  | cons a l ih =>
    simp only [List.map_cons]
    rw [h a (List.mem_cons_self a l), ih (fun a ha => h a (List.mem_cons_of_mem _ ha))]

/-! ### The stripping transform deletes characters and nothing else -/

theorem stripAllAux_sublist (pat : List Char) :
    ∀ (s : List Char) (k : Nat), (stripAllAux pat s k).Sublist s := by
  intro s
  induction s with
  | nil => intro k; cases k <;> simp [stripAllAux]
  | cons c cs ih =>
    intro k
    cases k with
    | succ k' =>
      show (stripAllAux pat cs k').Sublist (c :: cs)
      exact (ih k').cons c
    | zero =>
      cases h : matchCI pat (c :: cs) with
      | some rest =>
        simp only [stripAllAux, h]
        exact (ih _).cons c
      | none =>
        simp only [stripAllAux, h]
        exact (ih 0).cons₂ c

theorem stripLine_sublist (l : List Char) : (stripLine l).Sublist l := by
  simp only [stripLine, supportedAIMarkers, List.foldl_cons, List.foldl_nil, stripAllCI]
  exact (stripAllAux_sublist _ _ 0).trans
    ((stripAllAux_sublist _ _ 0).trans (stripAllAux_sublist _ _ 0))

/-! ### Splitting and joining are inverse on newline-free lines -/

theorem splitLinesAux_ne_nil : ∀ cs : List Char, splitLinesAux cs ≠ [] := by
  intro cs
  induction cs with
  | nil => simp [splitLinesAux]
  | cons c cs ih =>
    simp only [splitLinesAux]
    by_cases h : c = '\n'
    · simp [h]
    · rw [if_neg h]
      cases hs : splitLinesAux cs with
      | nil => simp
      | cons l ls => simp

theorem mem_splitLinesAux_no_newline :
    ∀ (cs l : List Char), l ∈ splitLinesAux cs → '\n' ∉ l := by
  intro cs
  induction cs with
  | nil =>
    intro l hl
    simp only [splitLinesAux, List.mem_singleton] at hl
    subst hl; simp
  | cons c cs ih =>
    intro l hl
    simp only [splitLinesAux] at hl
    by_cases h : c = '\n'
    · rw [if_pos h] at hl
      rcases List.mem_cons.mp hl with rfl | hmem
      · simp
      · exact ih l hmem
    · rw [if_neg h] at hl
      cases hs : splitLinesAux cs with
      | nil => exact absurd hs (splitLinesAux_ne_nil cs)
      | cons l₀ ls =>
        rw [hs] at hl
        rcases List.mem_cons.mp hl with rfl | hmem
        · intro hmm
          rcases List.mem_cons.mp hmm with heq | hmem₀
          · exact h heq.symm
          · exact ih l₀ (hs ▸ List.mem_cons_self l₀ ls) hmem₀
        · exact ih l (by rw [hs]; exact List.mem_cons_of_mem l₀ hmem)

theorem splitLinesAux_no_newline_eq :
    ∀ l : List Char, '\n' ∉ l → splitLinesAux l = [l] := by
  intro l
  induction l with
  | nil => intro _; rfl
  | cons c cs ih =>
    intro h
    have hc : ¬(c = '\n') := fun hc => h (by simp [hc])
    have hcs : '\n' ∉ cs := fun hm => h (List.mem_cons_of_mem c hm)
    simp only [splitLinesAux, if_neg hc, ih hcs]

theorem splitLinesAux_append :
    ∀ (l rest : List Char), '\n' ∉ l →
      splitLinesAux (l ++ '\n' :: rest) = l :: splitLinesAux rest := by
  intro l
  induction l with
  | nil => intro rest _; simp [splitLinesAux]
  | cons c cs ih =>
    intro rest h
    have hc : ¬(c = '\n') := fun hc => h (by simp [hc])
    have hcs : '\n' ∉ cs := fun hm => h (List.mem_cons_of_mem c hm)
    have hihr : splitLinesAux (cs.append ('\n' :: rest)) = cs :: splitLinesAux rest :=
      ih rest hcs
    simp only [List.cons_append, splitLinesAux, if_neg hc, hihr]

theorem splitLinesAux_joinAux :
    ∀ ls : List (List Char), ls ≠ [] → (∀ l ∈ ls, '\n' ∉ l) →
      splitLinesAux (joinAux ls) = ls := by
  intro ls
  induction ls with
  | nil => intro h _; exact absurd rfl h
  | cons l ls ih =>
    intro _ hno
    cases ls with
    | nil =>
      simp only [joinAux]
      exact splitLinesAux_no_newline_eq l (hno l (List.mem_cons_self l []))
    | cons l' ls' =>
      simp only [joinAux]
      rw [splitLinesAux_append l _ (hno l (List.mem_cons_self _ _))]
      rw [ih (by simp) (fun x hx => hno x (List.mem_cons_of_mem l hx))]

theorem map_mk_data : ∀ ls : List String, (ls.map String.data).map String.mk = ls := by
  intro ls
  induction ls with
  | nil => rfl
  | cons s ls ih =>
    simp only [List.map_cons]
    rw [ih]

theorem splitLines_joinLines (ls : List String) (hne : ls ≠ [])
    (hno : ∀ l ∈ ls, '\n' ∉ l.data) :
    splitLines (joinLines ls) = ls := by
  show (splitLinesAux (joinAux (ls.map String.data))).map String.mk = ls
  rw [splitLinesAux_joinAux (ls.map String.data) (by simpa using hne)
      (fun l hl => by
        obtain ⟨s, hs, rfl⟩ := List.mem_map.mp hl
        exact hno s hs)]
  exact map_mk_data ls

/-! ### A declarative description of the remover's rewrite

`rewriteLines` restates the remover's effect the way the specification
describes it: every line referenced by some occurrence is replaced by its
marker-stripped form, every other line is left untouched. -/

/-- Rewrite the lines from 0-based position `j` on: a line whose position is
referenced by some occurrence is stripped, any other line is kept as is. -/
def rewriteLinesAux (markers : List AIMarkerLocation) : Nat → List String → List String
  | _, [] => []
  | j, l :: ls =>
    (if markers.any (fun m => lineIdx m == j) then stripLineStr l else l) ::
      rewriteLinesAux markers (j + 1) ls

/-- Spec-level description of the remover's line rewrite. -/
def rewriteLines (lines : List String) (markers : List AIMarkerLocation) : List String :=
  rewriteLinesAux markers 0 lines

theorem rewriteLinesAux_length (markers : List AIMarkerLocation) :
    ∀ (ls : List String) (j : Nat), (rewriteLinesAux markers j ls).length = ls.length := by
  intro ls
  induction ls with
  | nil => intro j; rfl
  | cons l ls ih => intro j; simp only [rewriteLinesAux, List.length_cons, ih]

theorem rewriteLinesAux_getD (markers : List AIMarkerLocation) :
    ∀ (ls : List String) (j k : Nat),
      (rewriteLinesAux markers j ls).getD k "" =
        if markers.any (fun m => lineIdx m == j + k) then stripLineStr (ls.getD k "")
        else ls.getD k "" := by
  intro ls
  induction ls with
  | nil =>
    intro j k
    show ([] : List String).getD k "" = _
    by_cases hc : markers.any (fun m => lineIdx m == j + k)
    · rw [if_pos hc]; rfl
    · rw [if_neg hc]
  | cons l ls ih =>
    intro j k
    cases k with
    | zero =>
      simp only [rewriteLinesAux, List.getD_cons_zero, Nat.add_zero]
    | succ k' =>
      simp only [rewriteLinesAux, List.getD_cons_succ]
      rw [ih (j + 1) k']
      have harith : j + 1 + k' = j + (k' + 1) := by omega
      rw [harith]

theorem rewriteLinesAux_mem (markers : List AIMarkerLocation) :
    ∀ (ls : List String) (j : Nat) (l' : String),
      l' ∈ rewriteLinesAux markers j ls → ∃ l ∈ ls, l' = l ∨ l' = stripLineStr l := by
  intro ls
  induction ls with
  | nil => intro j l' h; simp [rewriteLinesAux] at h
  | cons l ls ih =>
    intro j l' h
    simp only [rewriteLinesAux] at h
    rcases List.mem_cons.mp h with rfl | hmem
    · refine ⟨l, List.mem_cons_self _ _, ?_⟩
      by_cases hc : markers.any (fun m => lineIdx m == j)
      · rw [if_pos hc]; right; rfl
      · rw [if_neg hc]; left; rfl
    · obtain ⟨l₀, hl₀, hor⟩ := ih (j + 1) l' hmem
      exact ⟨l₀, List.mem_cons_of_mem _ hl₀, hor⟩

/-! ### The remover loop computes the declarative rewrite -/

/-- For in-bounds occurrence lists with pairwise-distinct line numbers the
remover loop succeeds, rewrites exactly the referenced lines by stripping,
leaves every other line untouched, and emits one updated occurrence per input
occurrence carrying the input's line number and the stripped line text. -/
theorem removeAux_eq_of_distinct :
    ∀ (ms : List AIMarkerLocation) (lines : List String) (upd : List AIMarkerLocation),
      (∀ m ∈ ms, 1 ≤ m.lineNumber ∧ m.lineNumber ≤ (lines.length : Int)) →
      ms.Pairwise (fun a b => a.lineNumber ≠ b.lineNumber) →
      ∃ lines' : List String,
        removeAux lines upd ms =
          some (lines', upd ++ ms.map (fun m =>
            ⟨m.lineNumber, stripLineStr (lines.getD (lineIdx m) "")⟩)) ∧
        lines'.length = lines.length ∧
        (∀ j : Nat, (∀ m ∈ ms, lineIdx m ≠ j) → lines'.getD j "" = lines.getD j "") ∧
        (∀ m ∈ ms, lines'.getD (lineIdx m) "" = stripLineStr (lines.getD (lineIdx m) "")) := by
  intro ms
  induction ms with
  | nil =>
    intro lines upd _ _
    exact ⟨lines, by simp [removeAux], rfl, fun j _ => rfl,
      fun m hm => absurd hm (List.not_mem_nil m)⟩
  | cons m ms ih =>
    intro lines upd hb hd
    have hbm := hb m (List.mem_cons_self m ms)
    have hg : ¬(m.lineNumber ≤ 0 ∨ m.lineNumber > (lines.length : Int)) := by omega
    have hidx : lineIdx m < lines.length := by
      unfold lineIdx; omega
    have hdm : ∀ m' ∈ ms, m.lineNumber ≠ m'.lineNumber :=
      (List.pairwise_cons.mp hd).1
    have hd' : ms.Pairwise (fun a b => a.lineNumber ≠ b.lineNumber) :=
      (List.pairwise_cons.mp hd).2
    have hidxne : ∀ m' ∈ ms, lineIdx m' ≠ lineIdx m := by
      intro m' hm'
      have hb' := hb m' (List.mem_cons_of_mem m hm')
      have := hdm m' hm'
      unfold lineIdx
      omega
    have hb₁ : ∀ m' ∈ ms, 1 ≤ m'.lineNumber ∧
        m'.lineNumber ≤ ((lines.set (lineIdx m)
          (stripLineStr (lines.getD (lineIdx m) ""))).length : Int) := by
      intro m' hm'
      have := hb m' (List.mem_cons_of_mem m hm')
      simpa [List.length_set] using this
    obtain ⟨lines', heq, hlen, hframe, hset⟩ :=
      ih (lines.set (lineIdx m) (stripLineStr (lines.getD (lineIdx m) "")))
        (upd ++ [⟨m.lineNumber, stripLineStr (lines.getD (lineIdx m) "")⟩]) hb₁ hd'
    refine ⟨lines', ?_, ?_, ?_, ?_⟩
    · show removeAux lines upd (m :: ms) = _
      simp only [removeAux, if_neg hg]
      rw [show ((m.lineNumber - 1).toNat) = lineIdx m from rfl]
      rw [heq]
      have hmap : ms.map (fun m' =>
            (⟨m'.lineNumber, stripLineStr ((lines.set (lineIdx m)
              (stripLineStr (lines.getD (lineIdx m) ""))).getD (lineIdx m') "")⟩ :
              AIMarkerLocation)) =
          ms.map (fun m' =>
            ⟨m'.lineNumber, stripLineStr (lines.getD (lineIdx m') "")⟩) := by
        apply map_congr_mem
        intro m' hm'
        rw [getD_set_of_ne _ _ _ _ _ (fun hji => hidxne m' hm' hji.symm)]
      rw [hmap]
      simp [List.append_assoc, List.map_cons]
    · rw [hlen, List.length_set]
    · intro j hj
      rw [hframe j (fun m' hm' => hj m' (List.mem_cons_of_mem m hm'))]
      exact getD_set_of_ne _ _ _ _ _ (hj m (List.mem_cons_self m ms))
    · intro m'' hm''
      rcases List.mem_cons.mp hm'' with rfl | hmem
      · rw [hframe (lineIdx m'') (fun m' hm' => hidxne m' hm')]
        exact getD_set_self _ _ _ _ hidx
      · rw [hset m'' hmem]
        rw [getD_set_of_ne _ _ _ _ _ (fun hji => hidxne m'' hmem hji.symm)]

/-- The remover equals the declarative rewrite on in-bounds occurrence lists
with pairwise distinct line numbers. -/
theorem remove_eq_rewrite (content : String) (markers : List AIMarkerLocation)
    (hb : ∀ m ∈ markers, 1 ≤ m.lineNumber ∧
        m.lineNumber ≤ ((splitLines content).length : Int))
    (hd : markers.Pairwise (fun a b => a.lineNumber ≠ b.lineNumber)) :
    removeAIMarkersFromContent content markers =
      some (joinLines (rewriteLines (splitLines content) markers),
        markers.map (fun m =>
          ⟨m.lineNumber, stripLineStr ((splitLines content).getD (lineIdx m) "")⟩)) := by
  obtain ⟨lines', heq, hlen, hframe, hset⟩ :=
    removeAux_eq_of_distinct markers (splitLines content) [] hb hd
  have hlines : lines' = rewriteLines (splitLines content) markers := by
    apply ext_getD ""
    · rw [hlen, rewriteLines, rewriteLinesAux_length]
    · intro j
      rw [rewriteLines, rewriteLinesAux_getD]
      simp only [Nat.zero_add]
      by_cases hc : markers.any (fun m => lineIdx m == j)
      · rw [if_pos hc]
        obtain ⟨m, hm, hj⟩ := List.any_eq_true.mp hc
        have hj' : lineIdx m = j := by simpa using hj
        rw [← hj']
        exact hset m hm
      · rw [if_neg hc]
        apply hframe j
        intro m hm heq'
        exact hc (List.any_eq_true.mpr ⟨m, hm, by simp [heq']⟩)
  unfold removeAIMarkersFromContent
  rw [heq, hlines]
  simp only [List.nil_append]

/-! ### Claim theorems: frame property and round trip of the remover -/

/-- C7: on an in-bounds occurrence list with pairwise-distinct line numbers
(as the scanner produces), the remover replaces each referenced line by its
marker-stripped form — deleting every case-insensitive occurrence of each
vocabulary spelling and nothing else (the stripped line is a character
sublist of the original) — leaves every unreferenced line byte-for-byte
untouched, and returns one updated occurrence per input occurrence carrying
the same line number and the rewritten line text. -/
theorem C7_remove_functional (content : String) (markers : List AIMarkerLocation)
    (hb : ∀ m ∈ markers, 1 ≤ m.lineNumber ∧
        m.lineNumber ≤ ((splitLines content).length : Int))
    (hd : markers.Pairwise (fun a b => a.lineNumber ≠ b.lineNumber)) :
    removeAIMarkersFromContent content markers =
      some (joinLines (rewriteLines (splitLines content) markers),
        markers.map (fun m =>
          ⟨m.lineNumber, stripLineStr ((splitLines content).getD (lineIdx m) "")⟩)) ∧
    ∀ m ∈ markers,
      (stripLineStr ((splitLines content).getD (lineIdx m) "")).data.Sublist
        ((splitLines content).getD (lineIdx m) "").data :=
  ⟨remove_eq_rewrite content markers hb hd, fun _ _ => stripLine_sublist _⟩

/-- C7 witness: a three-line text with markers on lines 1 and 3 — both lines
are stripped (case-insensitively), the middle line is untouched, and the
updated occurrences carry the original line numbers with the new text. -/
theorem C7_witness :
    removeAIMarkersFromContent "// a ai!\nmiddle\n// b AI!"
      [⟨1, "// a ai!"⟩, ⟨3, "// b AI!"⟩] =
      some ("// a \nmiddle\n// b ", [⟨1, "// a "⟩, ⟨3, "// b "⟩]) := by
  have h := (C7_remove_functional "// a ai!\nmiddle\n// b AI!"
      [⟨1, "// a ai!"⟩, ⟨3, "// b AI!"⟩] (by decide) (by decide)).1
  rw [h]
  decide

/-- C7 counterexample: an occurrence list may reference the same line twice,
and then the remover strips that line twice; the first returned updated
occurrence carries the intermediate text `"// ai!"`, not the rewritten line
text `"// "` found in the returned content — so, without the distinct-lines
restriction, an updated occurrence need not carry the rewritten line text. -/
theorem C7_counterexample :
    removeAIMarkersFromContent "// aai!i!" [⟨1, "// aai!i!"⟩, ⟨1, "// aai!i!"⟩] =
      some ("// ", [⟨1, "// ai!"⟩, ⟨1, "// "⟩]) := by
  decide

/-- C1 (amended): removing the occurrences found by the scanner succeeds and
rewrites each referenced line to its marker-stripped form; on any referenced
line whose stripped text no longer contains a marker spelling, rescanning
the rewritten text finds no occurrence (deleting a token can concatenate the
surrounding fragments into a new spelling, in which case the line still
scans as a marker line — see the counterexample). -/
theorem C1_remove_rescan (content : String) (m : AIMarkerLocation)
    (hm : m ∈ findActiveAIMarkers content)
    (hstrip : hasAIMarker (stripLineStr ((splitLines content).getD (lineIdx m) "")) = false) :
    removeAIMarkersFromContent content (findActiveAIMarkers content) =
      some (joinLines (rewriteLines (splitLines content) (findActiveAIMarkers content)),
        (findActiveAIMarkers content).map (fun m' =>
          ⟨m'.lineNumber, stripLineStr ((splitLines content).getD (lineIdx m') "")⟩)) ∧
    ∀ m' ∈ findActiveAIMarkers
        (joinLines (rewriteLines (splitLines content) (findActiveAIMarkers content))),
      m'.lineNumber ≠ m.lineNumber := by
  have hb : ∀ m' ∈ findActiveAIMarkers content,
      1 ≤ m'.lineNumber ∧ m'.lineNumber ≤ ((splitLines content).length : Int) := by
    intro m' hm'
    obtain ⟨h1, h2, -, -, -⟩ := findAux_mem_spec (splitLines content) false 1 m' hm'
    exact ⟨h1, by omega⟩
  have hd : (findActiveAIMarkers content).Pairwise
      (fun a b => a.lineNumber ≠ b.lineNumber) :=
    (findAux_pairwise (splitLines content) false 1).imp (fun h => ne_of_lt h)
  refine ⟨remove_eq_rewrite content (findActiveAIMarkers content) hb hd, ?_⟩
  have hlen_new : (rewriteLines (splitLines content) (findActiveAIMarkers content)).length
      = (splitLines content).length :=
    rewriteLinesAux_length _ _ 0
  have hnn : ∀ l ∈ rewriteLines (splitLines content) (findActiveAIMarkers content),
      '\n' ∉ l.data := by
    intro l hl
    obtain ⟨l₀, hl₀, hor⟩ := rewriteLinesAux_mem _ _ 0 l hl
    have h₀ : '\n' ∉ l₀.data := by
      obtain ⟨lc, hlc, rfl⟩ := List.mem_map.mp hl₀
      exact mem_splitLinesAux_no_newline _ lc hlc
    rcases hor with rfl | rfl
    · exact h₀
    · intro hc
      exact h₀ ((stripLine_sublist l₀.data).subset hc)
  have hne_new : rewriteLines (splitLines content) (findActiveAIMarkers content) ≠ [] := by
    intro hnil
    rw [hnil] at hlen_new
    have hsplit_ne : splitLines content ≠ [] := by
      unfold splitLines
      simpa using splitLinesAux_ne_nil content.data
    exact hsplit_ne (List.length_eq_zero.mp hlen_new.symm)
  have hsplit : splitLines (joinLines
        (rewriteLines (splitLines content) (findActiveAIMarkers content))) =
      rewriteLines (splitLines content) (findActiveAIMarkers content) :=
    splitLines_joinLines _ hne_new hnn
  intro m' hm' heq'
  rw [findActiveAIMarkers, hsplit] at hm'
  obtain ⟨h1, h2, h3, hcm, hmk⟩ :=
    findAux_mem_spec (rewriteLines (splitLines content) (findActiveAIMarkers content))
      false 1 m' hm'
  have hidx : (m'.lineNumber - 1).toNat = lineIdx m := by
    unfold lineIdx
    rw [heq']
  have hrew : (rewriteLines (splitLines content) (findActiveAIMarkers content)).getD
      (lineIdx m) "" = stripLineStr ((splitLines content).getD (lineIdx m) "") := by
    rw [rewriteLines, rewriteLinesAux_getD]
    simp only [Nat.zero_add]
    rw [if_pos (List.any_eq_true.mpr ⟨m, hm, by simp⟩)]
  rw [hidx, hrew] at h3
  rw [h3] at hmk
  rw [hstrip] at hmk
  exact Bool.false_ne_true hmk

/-- C1 witness: for a one-line marker text the stripped line retains no
marker, the remover output is as described, and the rescan is empty. -/
theorem C1_witness :
    removeAIMarkersFromContent "// fix ai!" (findActiveAIMarkers "// fix ai!") =
      some ("// fix ", [⟨1, "// fix "⟩]) ∧
    findActiveAIMarkers "// fix " = [] := by
  have h := C1_remove_rescan "// fix ai!" ⟨1, "// fix ai!"⟩ (by decide) (by decide)
  refine ⟨?_, by decide⟩
  rw [h.1]
  decide

/-! ### Claim theorems: the remover (concrete parts) -/

/-- C1 counterexample: deleting a marker token can concatenate the
surrounding fragments into a new marker spelling.  Scanning `"// aai!i!"`
yields one occurrence; removing with exactly that occurrence list produces
`"// ai!"`, and scanning that line again still yields an occurrence on it —
so the rescan does not find zero occurrences on the referenced line. -/
theorem C1_counterexample :
    findActiveAIMarkers "// aai!i!" = [⟨1, "// aai!i!"⟩] ∧
    removeAIMarkersFromContent "// aai!i!" (findActiveAIMarkers "// aai!i!") =
      some ("// ai!", [⟨1, "// ai!"⟩]) ∧
    findActiveAIMarkers "// ai!" = [⟨1, "// ai!"⟩] := by
  refine ⟨by decide, by decide, by decide⟩

end Claudewatch
